import Mathlib

/-!
Verification of the Corner League Bot content platform against its
specification.  The data model and operations below are shallow
embeddings of the repository's sources: the relational schema in
`create_tables.sql`, the React data hooks in
`frontend/client/src/hooks/useSportsData.ts` and
`frontend/client/src/hooks/useQuestionnaire.ts`, and the questionnaire
page component.  Components of the ingestion/ranking backend that are
described by the specification but whose source is not present in the
repository snapshot are modelled from the specification and marked as
such in their doc comments.
-/

namespace CornerLeague

/-! ## Data model: `content_items` rows (`create_tables.sql`, lines 29-58)

Textual columns are `String`s, numeric score columns are rationals
(SQL `FLOAT`), timestamps are integers (epoch seconds), flags are `Bool`.
Only the columns the claims mention are carried. -/

structure ContentItem where
  id : String
  source_id : String
  original_url : String
  canonical_url : String
  content_hash : String
  title : String
  text : String
  published_at : Int
  quality_score : ℚ
  relevance_score : ℚ
  extraction_status : String
  retry_count : Nat
  is_active : Bool
  is_duplicate : Bool
  is_spam : Bool
deriving DecidableEq, Repr

/-- A database state for the `content_items` table: the list of rows. -/
abbrev ContentTable := List ContentItem

/-- `canonical_url` is fresh relative to the rows of `st`
(the `UNIQUE` constraint check on column `canonical_url`). -/
def urlFree (st : ContentTable) (u : String) : Bool :=
  st.all fun r => r.canonical_url ≠ u

/-- `content_hash` is fresh relative to the rows of `st`
(the `UNIQUE` constraint check on column `content_hash`). -/
def hashFree (st : ContentTable) (h : String) : Bool :=
  st.all fun r => r.content_hash ≠ h

/-- All rows have pairwise distinct `canonical_url` values. -/
def distinctUrls : ContentTable → Bool
  | [] => true
  | r :: rs => urlFree rs r.canonical_url && distinctUrls rs

/-- All rows have pairwise distinct `content_hash` values. -/
def distinctHashes : ContentTable → Bool
  | [] => true
  | r :: rs => hashFree rs r.content_hash && distinctHashes rs

/-- The table satisfies both `UNIQUE` constraints of
`create_tables.sql` (`canonical_url` and `content_hash`). -/
def contentWf (st : ContentTable) : Bool :=
  distinctUrls st && distinctHashes st

/-- `INSERT` of a row: the relational store accepts it only when both
`UNIQUE` constraints hold for the new row; otherwise the statement
fails and the state is unchanged (`none`). -/
def insertContentItem (st : ContentTable) (it : ContentItem) :
    Option ContentTable :=
  if urlFree st it.canonical_url && hashFree st it.content_hash then
    some (it :: st)
  else
    none

/-- `UPDATE` of the row with primary key `i` by `f`: the store
re-checks the `UNIQUE` constraints on the updated table and rejects the
statement (`none`) when they would be violated. -/
def updateContentItem (st : ContentTable) (i : String)
    (f : ContentItem → ContentItem) : Option ContentTable :=
  let st' := st.map fun r => if r.id = i then f r else r
  if contentWf st' then some st' else none

lemma urlFree_iff {st : ContentTable} {u : String} :
    urlFree st u = true ↔ ∀ r ∈ st, r.canonical_url ≠ u := by
  simp [urlFree, List.all_eq_true]

lemma hashFree_iff {st : ContentTable} {h : String} :
    hashFree st h = true ↔ ∀ r ∈ st, r.content_hash ≠ h := by
  simp [hashFree, List.all_eq_true]

lemma distinctUrls_iff {st : ContentTable} :
    distinctUrls st = true ↔
      st.Pairwise (fun a b => a.canonical_url ≠ b.canonical_url) := by
  induction st with
  | nil => simp [distinctUrls]
  | cons r rs ih =>
      simp only [distinctUrls, Bool.and_eq_true, List.pairwise_cons, ih,
        urlFree_iff]
      constructor
      · rintro ⟨h1, h2⟩
        exact ⟨fun b hb => fun e => h1 b hb e.symm, h2⟩
      · rintro ⟨h1, h2⟩
        exact ⟨fun b hb => fun e => h1 b hb e.symm, h2⟩

lemma distinctHashes_iff {st : ContentTable} :
    distinctHashes st = true ↔
      st.Pairwise (fun a b => a.content_hash ≠ b.content_hash) := by
  induction st with
  | nil => simp [distinctHashes]
  | cons r rs ih =>
      simp only [distinctHashes, Bool.and_eq_true, List.pairwise_cons, ih,
        hashFree_iff]
      constructor
      · rintro ⟨h1, h2⟩
        exact ⟨fun b hb => fun e => h1 b hb e.symm, h2⟩
      · rintro ⟨h1, h2⟩
        exact ⟨fun b hb => fun e => h1 b hb e.symm, h2⟩

lemma contentWf_insert {st st' : ContentTable} {it : ContentItem}
    (hwf : contentWf st = true)
    (h : insertContentItem st it = some st') : contentWf st' = true := by
  unfold insertContentItem at h
  by_cases hc : (urlFree st it.canonical_url && hashFree st it.content_hash) = true
  · rw [if_pos hc] at h
    obtain ⟨hu, hh⟩ := Bool.and_eq_true_iff.mp hc
    obtain ⟨hwu, hwh⟩ := Bool.and_eq_true_iff.mp hwf
    cases h
    simp only [contentWf, distinctUrls, distinctHashes, Bool.and_eq_true]
    refine ⟨⟨?_, hwu⟩, ?_, hwh⟩
    · exact hu
    · exact hh
  · rw [if_neg hc] at h
    cases h

lemma contentWf_update {st st' : ContentTable} {i : String}
    {f : ContentItem → ContentItem}
    (h : updateContentItem st i f = some st') : contentWf st' = true := by
  unfold updateContentItem at h
  by_cases hc : contentWf (st.map fun r => if r.id = i then f r else r) = true
  · rw [if_pos hc] at h
    cases h
    exact hc
  · rw [if_neg hc] at h
    cases h

/-- Claim C1: for every pair of distinct `content_items` rows their
`canonical_url` values differ, and for every pair of distinct rows with
`is_duplicate = false` their `content_hash` values differ (the schema in
fact makes `content_hash` globally unique, which is stronger); every
accepted `INSERT` or `UPDATE` preserves the two `UNIQUE` constraints. -/
theorem contentItems_uniqueness_invariant (st : ContentTable)
    (hwf : contentWf st = true) :
    st.Pairwise (fun a b => a.canonical_url ≠ b.canonical_url) ∧
    st.Pairwise (fun a b =>
      a.is_duplicate = false → b.is_duplicate = false →
        a.content_hash ≠ b.content_hash) ∧
    (∀ it st', insertContentItem st it = some st' → contentWf st' = true) ∧
    (∀ i f st', updateContentItem st i f = some st' →
      contentWf st' = true) := by
  obtain ⟨hu, hh⟩ := Bool.and_eq_true_iff.mp hwf
  refine ⟨distinctUrls_iff.mp hu, ?_, ?_, ?_⟩
  · exact (distinctHashes_iff.mp hh).imp fun hne _ _ => hne
  · intro it st' h
    exact contentWf_insert hwf h
  · intro i f st' h
    exact contentWf_update h

/-- Sample rows used by the concrete witnesses. -/
def exItemA : ContentItem :=
  { id := "a1", source_id := "s1", original_url := "http://espn.com/a?utm=x"
    canonical_url := "http://espn.com/a", content_hash := "h-aaaa"
    title := "A", text := "alpha", published_at := 100, quality_score := 0
    relevance_score := 0, extraction_status := "extracted", retry_count := 0
    is_active := true, is_duplicate := false, is_spam := false }

def exItemB : ContentItem :=
  { id := "b2", source_id := "s1", original_url := "http://espn.com/b"
    canonical_url := "http://espn.com/b", content_hash := "h-bbbb"
    title := "B", text := "beta", published_at := 90, quality_score := 0
    relevance_score := 0, extraction_status := "extracted", retry_count := 0
    is_active := true, is_duplicate := false, is_spam := false }

/-- Witness for C1 at the concrete two-row table. -/
theorem contentItems_uniqueness_invariant_witness :
    [exItemA, exItemB].Pairwise
      (fun a b => a.canonical_url ≠ b.canonical_url) ∧
    [exItemA, exItemB].Pairwise (fun a b =>
      a.is_duplicate = false → b.is_duplicate = false →
        a.content_hash ≠ b.content_hash) :=
  ⟨(contentItems_uniqueness_invariant [exItemA, exItemB] (by decide)).1,
   (contentItems_uniqueness_invariant [exItemA, exItemB] (by decide)).2.1⟩

/-! ## Search hooks (`useSportsData.ts`: `useSearch`, `useLatestNews`)

The hooks call the backend and, when the call throws a network error
and the mock fallback is enabled, resolve with a response object built
from bundled mock content.  The embedding keeps the exact field values
of the fallback object literals in the source. -/

/-- The shape of a `SearchResponse` as consumed by the hooks. -/
structure SearchResponseM where
  items : List String
  total_count : Nat
  has_more : Bool
  search_time_ms : Nat
  engine : String
  from_cache : Bool
deriving DecidableEq, Repr

/-- An error thrown by the API client; `isNetworkError` is the
`errorUtils.isNetworkError` classification used by the hooks. -/
structure ApiFailure where
  isNetworkError : Bool
deriving DecidableEq, Repr

/-- Modelled from the spec: `mockData.contentItems` (the bundled demo
articles of `lib/api.ts`, a module absent from the repository
snapshot).  The hooks only slice this list; its contents are
irrelevant to the claims, so representative ids stand in. -/
def mockContentItems : List String :=
  ["mock-1", "mock-2", "mock-3", "mock-4", "mock-5"]

/-- JavaScript `request.limit || 20`: `undefined` and `0` are falsy. -/
def jsLimitOr20 : Option Nat → Nat
  | none => 20
  | some 0 => 20
  | some n => n

/-- The fallback response object literal of `useSearch`
(`useSportsData.ts` lines 86-93). -/
def searchFallbackResponse (limit : Option Nat) : SearchResponseM :=
  { items := mockContentItems.take (jsLimitOr20 limit)
    total_count := mockContentItems.length
    has_more := false
    search_time_ms := 50
    engine := "mock"
    from_cache := false }

/-- The `queryFn` of `useSearch`: return the API result, or on a
network error with `fallbackToMock` enabled resolve with the mock
fallback response; rethrow every other error. -/
def searchQueryFn (fallbackToMock : Bool) (limit : Option Nat)
    (outcome : Except ApiFailure SearchResponseM) :
    Except ApiFailure SearchResponseM :=
  match outcome with
  | .ok r => .ok r
  | .error e =>
      if fallbackToMock && e.isNetworkError then
        .ok (searchFallbackResponse limit)
      else
        .error e

/-- The fallback response object literal of `useLatestNews`
(`useSportsData.ts` lines 222-229); here the slice bound is the plain
`limit` parameter. -/
def latestNewsFallbackResponse (limit : Nat) : SearchResponseM :=
  { items := mockContentItems.take limit
    total_count := mockContentItems.length
    has_more := false
    search_time_ms := 50
    engine := "mock"
    from_cache := false }

/-- The `queryFn` of `useLatestNews`: the fallback fires unless
`options.fallbackToMock` is literally `false`. -/
def latestNewsQueryFn (fallbackToMock : Option Bool) (limit : Nat)
    (outcome : Except ApiFailure SearchResponseM) :
    Except ApiFailure SearchResponseM :=
  match outcome with
  | .ok r => .ok r
  | .error e =>
      if fallbackToMock ≠ some false && e.isNetworkError then
        .ok (latestNewsFallbackResponse limit)
      else
        .error e

/-- Claim C2 counterexample: the claim states that when a read falls
back instead of failing, the response has `from_cache = true`.  At a
concrete network-error outcome both hooks do fall back (they resolve
with a response rather than rethrowing), yet the returned response has
`from_cache = false`. -/
theorem fallback_from_cache_counterexample :
    searchQueryFn true (some 20) (.error ⟨true⟩) =
      .ok (searchFallbackResponse (some 20)) ∧
    (searchFallbackResponse (some 20)).from_cache = false ∧
    latestNewsQueryFn none 20 (.error ⟨true⟩) =
      .ok (latestNewsFallbackResponse 20) ∧
    (latestNewsFallbackResponse 20).from_cache = false :=
  ⟨rfl, rfl, rfl, rfl⟩

/-- Claim C2 amended: when the backend call fails with a network error
and the fallback is enabled, `useSearch` and `useLatestNews` resolve
with a fallback response whose `from_cache` flag is `false` and whose
`engine` is `"mock"`: the fallback serves bundled mock content and
never surfaces `from_cache = true`. -/
theorem fallback_responses_not_marked_cached
    (e : ApiFailure) (he : e.isNetworkError = true)
    (limit : Option Nat) (limit' : Nat) (fb : Option Bool)
    (hfb : fb ≠ some false) :
    searchQueryFn true limit (.error e) =
      .ok (searchFallbackResponse limit) ∧
    (searchFallbackResponse limit).from_cache = false ∧
    (searchFallbackResponse limit).engine = "mock" ∧
    latestNewsQueryFn fb limit' (.error e) =
      .ok (latestNewsFallbackResponse limit') ∧
    (latestNewsFallbackResponse limit').from_cache = false ∧
    (latestNewsFallbackResponse limit').engine = "mock" := by
  refine ⟨?_, rfl, rfl, ?_, rfl, rfl⟩
  · simp [searchQueryFn, he]
  · simp [latestNewsQueryFn, he, hfb]

/-- Witness for the amended C2 at concrete inputs. -/
theorem fallback_responses_not_marked_cached_witness :
    searchQueryFn true (some 6) (.error ⟨true⟩) =
      .ok (searchFallbackResponse (some 6)) ∧
    (searchFallbackResponse (some 6)).from_cache = false :=
  ⟨(fallback_responses_not_marked_cached ⟨true⟩ rfl (some 6) 6 none
      (by decide)).1,
   (fallback_responses_not_marked_cached ⟨true⟩ rfl (some 6) 6 none
      (by decide)).2.1⟩

/-! ## `useTeamsForSports` (`useQuestionnaire.ts`, lines 371-415)

The hook is declared over `number[]`, but the questionnaire page feeds
it the selected sports, which are UUID strings.  Its filter keeps only
truthy values of JavaScript type `number` that are not `NaN`, so the
runtime values matter; a little universe of JavaScript values captures
exactly the cases the filter distinguishes. -/

inductive JsVal where
  | str : String → JsVal
  | num : Int → JsVal
  | nan : JsVal
  | null : JsVal
  | undef : JsVal
deriving DecidableEq, Repr

/-- JavaScript truthiness for the values above (`""`, `0`, `NaN`,
`null`, `undefined` are falsy). -/
def jsTruthy : JsVal → Bool
  | .str s => s ≠ ""
  | .num n => n ≠ 0
  | .nan => false
  | .null => false
  | .undef => false

/-- `typeof v === 'number'` (note `typeof NaN === 'number'`). -/
def jsTypeofNumber : JsVal → Bool
  | .num _ => true
  | .nan => true
  | _ => false

/-- `isNaN(v)` on the values the filter can reach. -/
def jsIsNaN : JsVal → Bool
  | .nan => true
  | _ => false

/-- `String(v)` for the kept values (only numbers survive the filter). -/
def jsToString : JsVal → String
  | .str s => s
  | .num n => toString n
  | .nan => "NaN"
  | .null => "null"
  | .undef => "undefined"

/-- The `validSportIds` computation of `useTeamsForSports`:
`(sportIds || []).filter(id => id && typeof id === 'number' && !isNaN(id)).map(String)`. -/
def teamsForSportsValidIds (sportIds : List JsVal) : List String :=
  ((sportIds.filter fun v =>
      jsTruthy v && jsTypeofNumber v && !jsIsNaN v).map jsToString)

/-- The query's `enabled` flag: `validSportIds.length > 0`. -/
def teamsQueryEnabled (sportIds : List JsVal) : Bool :=
  decide (0 < (teamsForSportsValidIds sportIds).length)

/-- The fetches a mounted query issues: one URL per valid sport id when
enabled, none when disabled (React Query never runs the `queryFn` of a
disabled query). -/
def teamFetchUrls (sportIds : List JsVal) : List String :=
  if teamsQueryEnabled sportIds then
    (teamsForSportsValidIds sportIds).map fun i =>
      "/api/questionnaire/sports/" ++ i ++ "/teams"
  else
    []

/-- Claim C4: for every non-empty list of string-valued sport ids (the
questionnaire page's selected sports are UUID strings), the filter of
`useTeamsForSports` rejects every element, so `validSportIds` is empty,
the teams query is disabled, and no team fetch is issued. -/
theorem teamsForSports_strings_never_fetch (l : List JsVal)
    (_hne : l ≠ [])
    (hstr : ∀ v ∈ l, ∃ s, v = JsVal.str s) :
    teamsForSportsValidIds l = [] ∧
    teamsQueryEnabled l = false ∧
    teamFetchUrls l = [] := by
  have hfilter : (l.filter fun v =>
      jsTruthy v && jsTypeofNumber v && !jsIsNaN v) = [] := by
    rw [List.filter_eq_nil_iff]
    intro v hv
    obtain ⟨s, rfl⟩ := hstr v hv
    simp [jsTruthy, jsTypeofNumber, jsIsNaN]
  have hvalid : teamsForSportsValidIds l = [] := by
    simp [teamsForSportsValidIds, hfilter]
  have henabled : teamsQueryEnabled l = false := by
    simp [teamsQueryEnabled, hvalid]
  refine ⟨hvalid, henabled, ?_⟩
  simp [teamFetchUrls, henabled]

/-- Witness for C4 at a concrete list of UUID strings. -/
theorem teamsForSports_strings_never_fetch_witness :
    teamsForSportsValidIds
      [JsVal.str "0b9f3c1e-1111-4a2a-9c3d-aaaaaaaaaaaa",
       JsVal.str "4d8e2f00-2222-4b3b-8d4e-bbbbbbbbbbbb"] = [] ∧
    teamsQueryEnabled
      [JsVal.str "0b9f3c1e-1111-4a2a-9c3d-aaaaaaaaaaaa",
       JsVal.str "4d8e2f00-2222-4b3b-8d4e-bbbbbbbbbbbb"] = false ∧
    teamFetchUrls
      [JsVal.str "0b9f3c1e-1111-4a2a-9c3d-aaaaaaaaaaaa",
       JsVal.str "4d8e2f00-2222-4b3b-8d4e-bbbbbbbbbbbb"] = [] :=
  teamsForSports_strings_never_fetch _ (by decide)
    (by
      intro v hv
      simp only [List.mem_cons, List.not_mem_nil, or_false] at hv
      rcases hv with rfl | rfl
      · exact ⟨_, rfl⟩
      · exact ⟨_, rfl⟩)

/-! ## Questionnaire page step machine (`QuestionnairePage`)

`handleSportsSelection` validates the selection, posts the preferences
and advances the step; the embedding records the visible component
state (current step, error banner) plus whether the save API was
called and what the ranking list was seeded with. -/

inductive QStep where
  | sports_selection
  | sports_ranking
  | teams_selection
  | completed
deriving DecidableEq, Repr

structure QState where
  currentStep : QStep
  error : Option String
  rankedSports : List String
deriving DecidableEq, Repr

/-- Result of running `handleSportsSelection`: the component state
afterwards, plus whether `saveSportPreferences.mutateAsync` was
invoked. -/
structure SportsSelectionResult where
  state : QState
  apiCalled : Bool
deriving DecidableEq, Repr

/-- `selectedSports.filter(id => id != null && id !== '')`; the embedded
selections are strings, so only the empty-string test remains. -/
def validSportIdsOf (selectedSports : List String) : List String :=
  selectedSports.filter fun s => s ≠ ""

/-- `handleSportsSelection` (`QuestionnairePage`, lines 114-152).  The
outcome of the awaited save call is passed in as `saveOutcome`; it is
only consulted when the call is actually made. -/
def handleSportsSelection (st : QState) (selectedSports : List String)
    (saveOutcome : Except String Unit) : SportsSelectionResult :=
  if selectedSports.length = 0 then
    { state := { st with error := some "Please select at least one sport" }
      apiCalled := false }
  else
    let valid := validSportIdsOf selectedSports
    match saveOutcome with
    | .ok _ =>
        if 1 < valid.length then
          { state := { currentStep := .sports_ranking, error := none
                       rankedSports := valid }
            apiCalled := true }
        else
          { state := { st with currentStep := .teams_selection
                               error := none }
            apiCalled := true }
    | .error msg =>
        { state := { st with error := some msg }
          apiCalled := true }

/-- Claim C9: submitting the sports-selection step with an empty
selection sets the error banner and leaves the step unchanged without
calling the save API; after a successful save the next step is
`sports_ranking` exactly when more than one valid sport id was
selected, and `teams_selection` otherwise. -/
theorem handleSportsSelection_spec (st : QState)
    (selectedSports : List String) (saveOutcome : Except String Unit) :
    (selectedSports = [] →
      (handleSportsSelection st selectedSports saveOutcome).state.currentStep
          = st.currentStep ∧
      (handleSportsSelection st selectedSports saveOutcome).state.error
          = some "Please select at least one sport" ∧
      (handleSportsSelection st selectedSports saveOutcome).apiCalled
          = false) ∧
    (selectedSports ≠ [] → saveOutcome = .ok () →
      ((handleSportsSelection st selectedSports saveOutcome).state.currentStep
          = QStep.sports_ranking ↔
        1 < (validSportIdsOf selectedSports).length) ∧
      (¬ 1 < (validSportIdsOf selectedSports).length →
        (handleSportsSelection st selectedSports saveOutcome).state.currentStep
          = QStep.teams_selection)) := by
  constructor
  · rintro rfl
    simp [handleSportsSelection]
  · rintro hne rfl
    have hlen : ¬ selectedSports.length = 0 := by
      simpa [List.length_eq_zero] using hne
    by_cases hv : 1 < (validSportIdsOf selectedSports).length
    · constructor
      · simp [handleSportsSelection, hlen, hv]
      · intro hv'
        exact absurd hv hv'
    · constructor
      · simp [handleSportsSelection, hlen, hv]
      · intro _
        simp [handleSportsSelection, hlen, hv]

/-- Witness for C9: two valid selected sports advance a successful save
to the ranking step. -/
theorem handleSportsSelection_spec_witness :
    (handleSportsSelection
        ⟨QStep.sports_selection, none, []⟩
        ["uuid-basketball", "uuid-hockey"]
        (.ok ())).state.currentStep = QStep.sports_ranking :=
  ((handleSportsSelection_spec
      ⟨QStep.sports_selection, none, []⟩
      ["uuid-basketball", "uuid-hockey"] (.ok ())).2
    (by decide) rfl).1.mpr (by decide)

/-! ## Ranking-step reorder buttons (`moveSportUp` / `moveSportDown`)

The page swaps `rankedSports[index]` with its neighbour through a copy
and a destructuring assignment; on every in-range index this is the
double `set` below (the embedding is faithful for `index <
rankedSports.length`, the only indices the component produces). -/

def moveSportUp (l : List String) (i : Nat) : List String :=
  if 0 < i then
    (l.set i (l.getD (i - 1) "")).set (i - 1) (l.getD i "")
  else
    l

def moveSportDown (l : List String) (i : Nat) : List String :=
  if i < l.length - 1 then
    (l.set i (l.getD (i + 1) "")).set (i + 1) (l.getD i "")
  else
    l

lemma moveSportUp_eq_swap : ∀ (i : Nat) (l : List String),
    0 < i → i < l.length →
    moveSportUp l i =
      l.take (i - 1) ++ l.getD i "" :: l.getD (i - 1) "" :: l.drop (i + 1)
  | 0, _, h0, _ => absurd h0 (by simp)
  | 1, [], _, h => absurd h (by simp)
  | 1, [_], _, h => absurd h (by simp)
  | 1, _ :: _ :: _, _, _ => by
      simp [moveSportUp, List.set, List.getD]
  | (k+2), [], _, h => absurd h (by simp)
  | (k+2), a :: t, _, h => by
      have ih := moveSportUp_eq_swap (k+1) t (Nat.succ_pos k)
        (by simp only [List.length_cons] at h; omega)
      have hstep : moveSportUp (a :: t) (k+2) = a :: moveSportUp t (k+1) := by
        simp [moveSportUp, Nat.succ_sub_one, List.set, List.getD_cons_succ]
      rw [hstep, ih]
      simp [Nat.succ_sub_one, List.getD_cons_succ, List.take_succ_cons,
        List.drop_succ_cons]

lemma moveSportDown_eq_up (l : List String) (i : Nat)
    (h : i < l.length - 1) : moveSportDown l i = moveSportUp l (i + 1) := by
  unfold moveSportDown moveSportUp
  rw [if_pos h, if_pos (Nat.succ_pos i), Nat.succ_sub_one]
  exact List.set_comm _ _ l (Nat.ne_of_lt (Nat.lt_succ_self i))

lemma list_take_swap_decomp (l : List String) (i : Nat)
    (h0 : 0 < i) (h : i < l.length) :
    l = l.take (i - 1) ++ l.getD (i - 1) "" :: l.getD i "" :: l.drop (i + 1) := by
  obtain ⟨j, rfl⟩ : ∃ j, i = j + 1 :=
    ⟨i - 1, (Nat.succ_pred_eq_of_pos h0).symm⟩
  have hj1 : j < l.length := lt_of_le_of_lt (Nat.le_succ j) h
  have hj2 : j + 1 < l.length := h
  rw [Nat.succ_sub_one, List.getD_eq_getElem l _ hj1,
    List.getD_eq_getElem l _ hj2]
  have e1 : List.drop j l = l[j] :: List.drop (j + 1) l :=
    (List.getElem_cons_drop l j hj1).symm
  have e2 : List.drop (j + 1) l = l[j + 1] :: List.drop (j + 2) l :=
    (List.getElem_cons_drop l (j + 1) hj2).symm
  conv_lhs => rw [← List.take_append_drop j l, e1, e2]

lemma moveSportUp_perm (l : List String) (i : Nat) (h : i < l.length) :
    List.Perm (moveSportUp l i) l := by
  rcases Nat.eq_zero_or_pos i with rfl | h0
  · simp [moveSportUp]
  · rw [moveSportUp_eq_swap i l h0 h]
    have hswap : List.Perm
        (l.take (i - 1) ++ l.getD i "" :: l.getD (i - 1) "" :: l.drop (i + 1))
        (l.take (i - 1) ++ l.getD (i - 1) "" :: l.getD i "" :: l.drop (i + 1)) :=
      List.Perm.append_left _ (List.Perm.swap _ _ _)
    rw [← list_take_swap_decomp l i h0 h] at hswap
    exact hswap

/-- Claim C10: for every in-range index, `moveSportUp` and
`moveSportDown` return a permutation of the ranked-sports list of the
same length in which only the chosen adjacent pair is swapped (the
take/append characterizations below pin the result exactly), and at the
boundaries — index `0` for `moveSportUp`, the last index for
`moveSportDown` — the list is returned unchanged. -/
theorem moveSport_adjacent_swap (l : List String) (i : Nat)
    (h : i < l.length) :
    List.Perm (moveSportUp l i) l ∧
    List.Perm (moveSportDown l i) l ∧
    (moveSportUp l i).length = l.length ∧
    (moveSportDown l i).length = l.length ∧
    (i = 0 → moveSportUp l i = l) ∧
    (i = l.length - 1 → moveSportDown l i = l) ∧
    (0 < i → moveSportUp l i =
      l.take (i - 1) ++ l.getD i "" :: l.getD (i - 1) "" :: l.drop (i + 1)) ∧
    (i < l.length - 1 → moveSportDown l i =
      l.take i ++ l.getD (i + 1) "" :: l.getD i "" :: l.drop (i + 2)) := by
  have hup : List.Perm (moveSportUp l i) l := moveSportUp_perm l i h
  have hdown : List.Perm (moveSportDown l i) l := by
    by_cases hd : i < l.length - 1
    · rw [moveSportDown_eq_up l i hd]
      exact moveSportUp_perm l (i + 1) (by omega)
    · simp [moveSportDown, hd]
  refine ⟨hup, hdown, hup.length_eq, hdown.length_eq, ?_, ?_, ?_, ?_⟩
  · rintro rfl
    simp [moveSportUp]
  · intro hi
    have : ¬ i < l.length - 1 := by omega
    simp [moveSportDown, this]
  · intro h0
    exact moveSportUp_eq_swap i l h0 h
  · intro hd
    rw [moveSportDown_eq_up l i hd,
      moveSportUp_eq_swap (i + 1) l (Nat.succ_pos i) (by omega)]
    simp [Nat.succ_sub_one]

/-- Witness for C10 at a concrete three-element ranking and index 1. -/
theorem moveSport_adjacent_swap_witness :
    List.Perm (moveSportUp ["nba", "nfl", "mlb"] 1) ["nba", "nfl", "mlb"] ∧
    List.Perm (moveSportDown ["nba", "nfl", "mlb"] 1) ["nba", "nfl", "mlb"] :=
  ⟨(moveSport_adjacent_swap ["nba", "nfl", "mlb"] 1 (by decide)).1,
   (moveSport_adjacent_swap ["nba", "nfl", "mlb"] 1 (by decide)).2.1⟩

/-! ## Quality scoring

The `quality_score` column defaults to `0.0` (`create_tables.sql`,
line 46); the scorer itself belongs to the ingestion backend, which is
absent from the repository snapshot. -/

/-- Clamp a rational into the unit interval. -/
def clamp01 (q : ℚ) : ℚ := max 0 (min 1 q)

/-- Modelled from the spec: the Quality Scorer (`§4.3`), absent from
the sources, maps a `ContentItem` plus its `Source` to a
`quality_score ∈ [0,1]` as a weighted combination of source
reputation, quality tier, extraction confidence, text-length adequacy
and spam heuristics; the weights are configuration defaults and the
combination is clamped into the unit interval. -/
def computeQualityScore (reputation tierScore confidence lengthScore
    spamScore : ℚ) : ℚ :=
  clamp01 (30/100 * reputation + 15/100 * tierScore +
    25/100 * confidence + 15/100 * lengthScore + 15/100 * spamScore)

lemma clamp01_mem (q : ℚ) : 0 ≤ clamp01 q ∧ clamp01 q ≤ 1 :=
  ⟨le_max_left 0 _, max_le (by norm_num) (min_le_left 1 q)⟩

/-- States of the `content_items` table reachable through the
pipeline: the table starts empty; the Extractor inserts rows with the
schema's default `quality_score = 0.0`; the Quality Scorer (re-)scores
a row by writing `computeQualityScore` of its signals. -/
inductive ReachableContent : ContentTable → Prop
  | empty : ReachableContent []
  | create {st st' : ContentTable} {it : ContentItem} :
      ReachableContent st → it.quality_score = 0 →
      insertContentItem st it = some st' → ReachableContent st'
  | score {st st' : ContentTable} {i : String}
      (reputation tierScore confidence lengthScore spamScore : ℚ) :
      ReachableContent st →
      updateContentItem st i (fun r =>
        { r with quality_score := (computeQualityScore reputation tierScore
            confidence lengthScore spamScore) }) = some st' →
      ReachableContent st'

/-- Claim C3: in every reachable state of the system — after creation,
scoring and re-scoring — every `content_items` row has
`quality_score ∈ [0,1]`. -/
theorem quality_score_bounded {st : ContentTable}
    (h : ReachableContent st) :
    ∀ it ∈ st, 0 ≤ it.quality_score ∧ it.quality_score ≤ 1 := by
  induction h with
  | empty => intro it hit; cases hit
  | create hr hq hins ih =>
      rename_i st st' it
      intro x hx
      unfold insertContentItem at hins
      by_cases hc : (urlFree st it.canonical_url &&
          hashFree st it.content_hash) = true
      · rw [if_pos hc] at hins
        cases hins
        rcases List.mem_cons.mp hx with rfl | hx'
        · rw [hq]
          norm_num
        · exact ih x hx'
      · rw [if_neg hc] at hins
        cases hins
  | score reputation tierScore confidence lengthScore spamScore hr hupd ih =>
      rename_i st st' i
      intro x hx
      unfold updateContentItem at hupd
      by_cases hc : contentWf (st.map fun r =>
          if r.id = i then
            { r with quality_score := (computeQualityScore reputation
                tierScore confidence lengthScore spamScore) }
          else r) = true
      · rw [if_pos hc] at hupd
        cases hupd
        obtain ⟨r, hr', hrx⟩ := List.mem_map.mp hx
        by_cases hid : r.id = i
        · rw [if_pos hid] at hrx
          subst hrx
          exact clamp01_mem _
        · rw [if_neg hid] at hrx
          subst hrx
          exact ih r hr'
      · rw [if_neg hc] at hupd
        cases hupd

/-- Witness for C3: a table reached by one insert followed by one
scoring pass keeps its row's `quality_score` in `[0,1]`. -/
theorem quality_score_bounded_witness :
    0 ≤ exItemA.quality_score ∧ exItemA.quality_score ≤ 1 :=
  quality_score_bounded
    (@ReachableContent.create [] [exItemA] exItemA
      ReachableContent.empty rfl rfl)
    exItemA (by decide)

/-! ## Content-hash determinism

The Extractor (`§4.2`) is part of the ingestion backend, absent from
the repository snapshot; its normalization and digest are modelled
from the specification. -/

/-- Split a character list into maximal whitespace-free words; `acc`
carries the current word reversed. -/
def wordsAux : List Char → List Char → List (List Char)
  | [], acc => if acc = [] then [] else [acc.reverse]
  | c :: cs, acc =>
      if c.isWhitespace then
        if acc = [] then wordsAux cs [] else acc.reverse :: wordsAux cs []
      else
        wordsAux cs (c :: acc)

/-- Modelled from the spec: the Extractor's text normalization
(lower-case the text and collapse runs of whitespace), the input to
the content digest. -/
def normalizeText (s : String) : String :=
  String.mk (List.intercalate [' '] (wordsAux (s.toList.map Char.toLower) []))

/-- Modelled from the spec: `content_hash` as a deterministic 64-bit
digest over text (an FNV-1a-style fold over the characters, reduced
modulo `2 ^ 64`). -/
def contentHashOf (s : String) : Nat :=
  s.toList.foldl
    (fun h c => ((h ^^^ c.toNat) * 1099511628211) % 2 ^ 64)
    14695981039346656037

/-- One extraction run: the raw document text plus the run context
that varies between runs (fetch time, worker identity). -/
structure ExtractionRun where
  rawText : String
  fetchedAt : Int
  workerId : Nat
deriving Repr

/-- The hash an extraction run computes: a digest of the normalized
text only; the run context does not enter. -/
def extractContentHash (r : ExtractionRun) : Nat :=
  contentHashOf (normalizeText r.rawText)

/-- Claim C5: any two extraction runs over the same normalized input
text — regardless of when they run or which worker performs them —
compute the same `content_hash`: the hash is a deterministic digest of
the normalized text. -/
theorem content_hash_deterministic (r1 r2 : ExtractionRun)
    (h : normalizeText r1.rawText = normalizeText r2.rawText) :
    extractContentHash r1 = extractContentHash r2 := by
  unfold extractContentHash
  rw [h]

/-- Witness for C5: two runs at different times on different workers,
whose raw texts differ only in case and spacing, hash identically. -/
theorem content_hash_deterministic_witness :
    normalizeText (ExtractionRun.mk "Final  Score 101" 1700000000 1).rawText
      = normalizeText (ExtractionRun.mk "final score 101" 1700009999 7).rawText ∧
    extractContentHash (ExtractionRun.mk "Final  Score 101" 1700000000 1)
      = extractContentHash (ExtractionRun.mk "final score 101" 1700009999 7) :=
  ⟨by decide,
   content_hash_deterministic _ _ (by decide)⟩

/-! ## Summarization failure isolation (`useSummarization`,
`Home.handleArticleClick`)

`useSummarization` is a mutation whose `onSuccess` writes only the
summary cache entry and whose `onError` reports through the mutation's
own error channel; neither handler touches the search/news query
caches.  The embedding is the client cache state with the two handlers
as a transition. -/

/-- The result of the external summarization call. -/
structure SummaryResultM where
  summary : String
  confidence_score : ℚ
  key_entities : List String
  generation_time_ms : Nat
deriving DecidableEq, Repr

/-- The React Query client cache, restricted to the query families the
claim mentions: search/news responses keyed by request, summaries
keyed by content id, and the summarization mutation's error channel. -/
structure ClientState where
  searchCache : List (String × SearchResponseM)
  summaryCache : List (String × SummaryResultM)
  summaryError : Option String
deriving DecidableEq, Repr

/-- Cache lookup for a search/news query key. -/
def lookupSearch (st : ClientState) (k : String) : Option SearchResponseM :=
  (st.searchCache.find? fun p => p.1 = k).map Prod.snd

/-- The summarization mutation settling for content id `cid`:
`onSuccess` caches the summary (`queryClient.setQueryData` on the
summary key) and clears the error; `onError` records the error on the
mutation (surfaced to the component via `mutation.error`). -/
def applySummarization (st : ClientState) (cid : String)
    (outcome : Except String SummaryResultM) : ClientState :=
  match outcome with
  | .ok d =>
      { st with summaryCache := (cid, d) :: st.summaryCache
                summaryError := none }
  | .error e => { st with summaryError := some e }

/-- Claim C8: settling a summarization call — success or failure —
never changes the search/news caches: every search or latest-news
query afterwards returns exactly the items it returned before, and a
failure is confined to the summarization error channel. -/
theorem summarization_failure_isolated (st : ClientState) (cid : String)
    (outcome : Except String SummaryResultM) (e : String) :
    (applySummarization st cid outcome).searchCache = st.searchCache ∧
    (∀ k, lookupSearch (applySummarization st cid outcome) k
        = lookupSearch st k) ∧
    (applySummarization st cid (.error e)).summaryError = some e := by
  refine ⟨?_, ?_, rfl⟩
  · cases outcome <;> rfl
  · intro k
    cases outcome <;> rfl

/-! ## Trending surface (`useTrending`)

`useTrending` returns the backend's trending terms, falling back to
`mockData.trendingTerms.slice(0, limit)` on a network error.  The
backend trending query and the mock list live outside the repository
snapshot and are modelled from the specification. -/

structure TrendingTerm where
  term : String
  burst_score : ℚ
  is_trending : Bool
deriving DecidableEq, Repr

/-- Non-strict comparison "ranked at least as high": burst score
descending. -/
def burstGE (a b : TrendingTerm) : Prop := b.burst_score ≤ a.burst_score

instance : DecidableRel burstGE := fun a b =>
  inferInstanceAs (Decidable (b.burst_score ≤ a.burst_score))

instance : IsTotal TrendingTerm burstGE :=
  ⟨fun a b => le_total b.burst_score a.burst_score⟩

instance : IsTrans TrendingTerm burstGE :=
  ⟨fun _ _ _ h1 h2 => le_trans h2 h1⟩

/-- Modelled from the spec: the backend trending query — the top-`K`
terms of the current window ordered by `burst_score` descending,
truncated to the requested limit. -/
def trendingQuery (corpus : List TrendingTerm) (limit : Nat) :
    List TrendingTerm :=
  (List.insertionSort burstGE corpus).take limit

/-- Modelled from the spec: `mockData.trendingTerms` (from the absent
`lib/api.ts` module) — a fixed demo list, ranked by burst score
descending as the trending surface requires. -/
def mockTrendingTerms : List TrendingTerm :=
  [⟨"nba finals", 87/10, true⟩, ⟨"trade deadline", 52/10, true⟩,
   ⟨"spring training", 19/10, false⟩]

/-- The `queryFn` of `useTrending`: the backend result, or the sliced
mock list on a network error; other errors are rethrown. -/
def useTrendingFn (corpus : List TrendingTerm) (fail : Option ApiFailure)
    (limit : Nat) : Except ApiFailure (List TrendingTerm) :=
  match fail with
  | none => .ok (trendingQuery corpus limit)
  | some e =>
      if e.isNetworkError then .ok (mockTrendingTerms.take limit)
      else .error e

lemma mockTrendingTerms_sorted :
    List.Sorted burstGE mockTrendingTerms := by
  unfold mockTrendingTerms
  refine List.Pairwise.cons ?_ (List.Pairwise.cons ?_ ?_)
  · intro b hb
    simp only [List.mem_cons, List.not_mem_nil, or_false] at hb
    rcases hb with rfl | rfl <;> [skip; skip] <;>
      simp [burstGE] <;> norm_num
  · intro b hb
    simp only [List.mem_cons, List.not_mem_nil, or_false] at hb
    subst hb
    simp [burstGE]
    norm_num
  · exact List.pairwise_singleton _ _

/-- Claim C7: for every limit, `useTrending` resolves with at most
`limit` terms ordered by `burst_score` descending — on the live
backend path and on the network-error fallback path alike. -/
theorem trending_limit_and_order (corpus : List TrendingTerm)
    (fail : Option ApiFailure) (limit : Nat) (r : List TrendingTerm)
    (h : useTrendingFn corpus fail limit = .ok r) :
    r.length ≤ limit ∧ List.Sorted burstGE r := by
  have htake : ∀ l : List TrendingTerm, List.Sorted burstGE l →
      (l.take limit).length ≤ limit ∧ List.Sorted burstGE (l.take limit) :=
    fun l hl =>
      ⟨List.length_take_le limit l, hl.sublist (List.take_sublist limit l)⟩
  match fail, h with
  | none, h =>
      cases h
      exact htake _ (List.sorted_insertionSort burstGE corpus)
  | some e, h =>
      by_cases hn : e.isNetworkError = true
      · simp only [useTrendingFn, hn, if_true] at h
        cases h
        exact htake _ mockTrendingTerms_sorted
      · simp [useTrendingFn, hn] at h

/-- Witness for C7 on the fallback path with limit 2. -/
theorem trending_limit_and_order_witness :
    (mockTrendingTerms.take 2).length ≤ 2 ∧
    List.Sorted burstGE (mockTrendingTerms.take 2) :=
  trending_limit_and_order [] (some ⟨true⟩) 2 (mockTrendingTerms.take 2) rfl

/-! ## Ranking Engine query order

The Ranking Engine (`§4.4`) belongs to the backend, absent from the
repository snapshot; its result ordering contract is modelled from the
specification. -/

/-- A query-result item: its identity plus the two ordering signals. -/
structure RankedItem where
  canonical_url : String
  relevance_score : ℚ
  published_at : Int
deriving DecidableEq, Repr

/-- Modelled from the spec: the tie-break order of query results —
relevance score descending, then `published_at` descending, then
`canonical_url` ascending.  `rankOrder a b` reads "`a` is ranked at or
before `b`". -/
def rankOrder (a b : RankedItem) : Prop :=
  b.relevance_score < a.relevance_score ∨
    (a.relevance_score = b.relevance_score ∧
      (b.published_at < a.published_at ∨
        (a.published_at = b.published_at ∧
          a.canonical_url ≤ b.canonical_url)))

/-- The sort key realizing `rankOrder` as a lexicographic linear
order. -/
def rankKey (a : RankedItem) : Lex (ℚ × Lex (Int × String)) :=
  toLex (-a.relevance_score, toLex (-a.published_at, a.canonical_url))

lemma rankOrder_iff_key {a b : RankedItem} :
    rankOrder a b ↔ rankKey a ≤ rankKey b := by
  unfold rankOrder rankKey
  rw [Prod.Lex.le_iff, Prod.Lex.le_iff]
  simp only [neg_lt_neg_iff, neg_inj]

instance : DecidableRel rankOrder := fun a b => by
  unfold rankOrder
  infer_instance

instance : IsTotal RankedItem rankOrder :=
  ⟨fun a b => by
    rw [rankOrder_iff_key, rankOrder_iff_key]
    exact le_total _ _⟩

instance : IsTrans RankedItem rankOrder :=
  ⟨fun a b c h1 h2 => by
    rw [rankOrder_iff_key] at h1 h2 ⊢
    exact le_trans h1 h2⟩

lemma rankKey_eq_url {a b : RankedItem} (h : rankKey a = rankKey b) :
    a.canonical_url = b.canonical_url := by
  unfold rankKey at h
  have h1 := toLex.injective h
  have h2 := congrArg Prod.snd h1
  have h3 := toLex.injective h2
  exact congrArg Prod.snd h3

lemma rankOrder_antisymm_url {a b : RankedItem}
    (h1 : rankOrder a b) (h2 : rankOrder b a) :
    a.canonical_url = b.canonical_url := by
  rw [rankOrder_iff_key] at h1 h2
  exact rankKey_eq_url (le_antisymm h1 h2)

/-- Modelled from the spec: `query` over a fixed corpus — the matching
items, ordered by the tie-break order. -/
def queryRank (corpus : List RankedItem) (pred : RankedItem → Bool) :
    List RankedItem :=
  List.insertionSort rankOrder (corpus.filter pred)

/-- Among lists whose `canonical_url`s identify their elements, a
sorted permutation is unique. -/
lemma rank_sorted_unique {l₁ l₂ : List RankedItem}
    (hp : List.Perm l₁ l₂) (hs₁ : List.Sorted rankOrder l₁)
    (hs₂ : List.Sorted rankOrder l₂)
    (hinj : ∀ x ∈ l₂, ∀ y ∈ l₂, x.canonical_url = y.canonical_url → x = y) :
    l₁ = l₂ := by
  induction hs₁ generalizing l₂ with
  | nil => exact hp.nil_eq
  | @cons a l₁ h₁ hs₁ IH =>
      have ha : a ∈ l₂ := hp.subset (List.mem_cons_self _ _)
      rcases List.append_of_mem ha with ⟨u₂, v₂, rfl⟩
      have hp' := (List.perm_cons a).1 (hp.trans List.perm_middle)
      have hsub : List.Sublist (u₂ ++ v₂) (u₂ ++ a :: v₂) := by simp
      have hinj' : ∀ x ∈ u₂ ++ v₂, ∀ y ∈ u₂ ++ v₂,
          x.canonical_url = y.canonical_url → x = y := fun x hx y hy =>
        hinj x (hsub.subset hx) y (hsub.subset hy)
      obtain rfl := IH hp' (hs₂.sublist hsub) hinj'
      have hall : ∀ x ∈ u₂, x = a := by
        intro x hx
        have hxa : rankOrder x a :=
          (List.pairwise_append.1 hs₂).2.2 x hx a (List.mem_cons_self _ _)
        have hax : rankOrder a x := h₁ x (by simp [hx])
        exact hinj x (hsub.subset (by simp [hx])) a ha
          (rankOrder_antisymm_url hxa hax)
      have hu : u₂ = List.replicate u₂.length a :=
        List.eq_replicate_iff.2 ⟨rfl, hall⟩
      rw [hu]
      rw [show a :: (List.replicate u₂.length a ++ v₂)
            = List.replicate (u₂.length + 1) a ++ v₂ from by
          rw [List.replicate_succ]; rfl,
        List.replicate_succ']
      simp

/-- In a list with pairwise distinct `canonical_url`s, the url
identifies the element. -/
lemma url_inj_of_pairwise {l : List RankedItem}
    (hnd : l.Pairwise (fun a b => a.canonical_url ≠ b.canonical_url)) :
    ∀ x ∈ l, ∀ y ∈ l, x.canonical_url = y.canonical_url → x = y := by
  induction hnd with
  | nil =>
      intro x hx
      cases hx
  | cons hhead _ ih =>
      intro x hx y hy hxy
      rcases List.mem_cons.mp hx with rfl | hx'
      · rcases List.mem_cons.mp hy with rfl | hy'
        · rfl
        · exact absurd hxy (hhead y hy')
      · rcases List.mem_cons.mp hy with rfl | hy'
        · exact absurd hxy.symm (hhead x hx')
        · exact ih x hx' y hy' hxy

/-- Claim C6: for a fixed corpus whose rows have pairwise distinct
`canonical_url`s (the schema invariant) and any fixed match predicate,
the query result is the matching items ordered by relevance score
descending, then `published_at` descending, then `canonical_url`
ascending — and it is the unique such ordering, so the returned order
is deterministic. -/
theorem query_order_deterministic (corpus : List RankedItem)
    (pred : RankedItem → Bool)
    (hurl : corpus.Pairwise
      (fun a b => a.canonical_url ≠ b.canonical_url)) :
    List.Perm (queryRank corpus pred) (corpus.filter pred) ∧
    List.Sorted rankOrder (queryRank corpus pred) ∧
    ∀ l, List.Perm l (corpus.filter pred) → List.Sorted rankOrder l →
      l = queryRank corpus pred := by
  have hperm : List.Perm (queryRank corpus pred) (corpus.filter pred) :=
    List.perm_insertionSort rankOrder _
  have hsorted : List.Sorted rankOrder (queryRank corpus pred) :=
    List.sorted_insertionSort rankOrder _
  refine ⟨hperm, hsorted, ?_⟩
  intro l hl hls
  have hnd : (queryRank corpus pred).Pairwise
      (fun a b => a.canonical_url ≠ b.canonical_url) :=
    hperm.pairwise_iff (fun h => h.symm) |>.2
      ((hurl.sublist (List.filter_sublist corpus)))
  exact rank_sorted_unique (hl.trans hperm.symm) hls hsorted
    (url_inj_of_pairwise hnd)

/-- Witness for C6 at a concrete two-item corpus. -/
theorem query_order_deterministic_witness :
    List.Sorted rankOrder
      (queryRank [⟨"http://a", 1/2, 10⟩, ⟨"http://b", 3/4, 5⟩]
        (fun _ => true)) :=
  (query_order_deterministic
      [⟨"http://a", 1/2, 10⟩, ⟨"http://b", 3/4, 5⟩] (fun _ => true)
      (by decide)).2.1

end CornerLeague
